import Mathlib

/-!
Verification development for the MD5 digest layer of `bson-md5.c`.

The repository file `Sources/CLibMongoC/bson/bson-md5.c` contains three
public entry points, `bson_md5_init`, `bson_md5_append` and
`bson_md5_finish`, each of which forwards to a `COMMON_PREFIX`-named
internal implementation function with the same arguments.  The internal
MD5 engine itself is not part of the provided source, so it is modelled
here from the specification (RFC 1321 style MD5: four 32-bit
accumulators, a 64-byte block compression function with four rounds of
sixteen steps, Merkle-Damgard length padding, little-endian digest
emission).  Bytes are modelled as natural numbers; every 32-bit
operation truncates explicitly modulo 2^32, and the bit counter is kept
modulo 2^64, exactly as the corresponding C types force.
-/

/-- Truncation to a 32-bit word. -/
def w32 (x : Nat) : Nat := x % 4294967296

/-- Addition modulo 2^32, the word addition used throughout MD5. -/
def wadd (x y : Nat) : Nat := (x + y) % 4294967296

/-- Bitwise complement within 32 bits (for arguments below 2^32). -/
def wnot (x : Nat) : Nat := Nat.xor x 4294967295

/-- Left rotation of a 32-bit word by `n` places (for 0 < n < 32). -/
def rotl (x n : Nat) : Nat := Nat.lor (x <<< n) (x >>> (32 - n)) % 4294967296

/-- Round function F of MD5: F(x,y,z) = (x AND y) OR ((NOT x) AND z). -/
def auxF (x y z : Nat) : Nat := Nat.lor (Nat.land x y) (Nat.land (wnot x) z)

/-- Round function G of MD5: G(x,y,z) = (x AND z) OR (y AND (NOT z)). -/
def auxG (x y z : Nat) : Nat := Nat.lor (Nat.land x z) (Nat.land y (wnot z))

/-- Round function H of MD5: H(x,y,z) = x XOR y XOR z. -/
def auxH (x y z : Nat) : Nat := Nat.xor (Nat.xor x y) z

/-- Round function I of MD5: I(x,y,z) = y XOR (x OR (NOT z)). -/
def auxI (x y z : Nat) : Nat := Nat.xor y (Nat.lor x (wnot z))

/-- The table of 64 additive constants T[i+1] = floor(2^32 * abs(sin(i+1))). -/
def tTable : List Nat :=
  [0xd76aa478, 0xe8c7b756, 0x242070db, 0xc1bdceee,
   0xf57c0faf, 0x4787c62a, 0xa8304613, 0xfd469501,
   0x698098d8, 0x8b44f7af, 0xffff5bb1, 0x895cd7be,
   0x6b901122, 0xfd987193, 0xa679438e, 0x49b40821,
   0xf61e2562, 0xc040b340, 0x265e5a51, 0xe9b6c7aa,
   0xd62f105d, 0x02441453, 0xd8a1e681, 0xe7d3fbc8,
   0x21e1cde6, 0xc33707d6, 0xf4d50d87, 0x455a14ed,
   0xa9e3e905, 0xfcefa3f8, 0x676f02d9, 0x8d2a4c8a,
   0xfffa3942, 0x8771f681, 0x6d9d6122, 0xfde5380c,
   0xa4beea44, 0x4bdecfa9, 0xf6bb4b60, 0xbebfbc70,
   0x289b7ec6, 0xeaa127fa, 0xd4ef3085, 0x04881d05,
   0xd9d4d039, 0xe6db99e5, 0x1fa27cf8, 0xc4ac5665,
   0xf4292244, 0x432aff97, 0xab9423a7, 0xfc93a039,
   0x655b59c3, 0x8f0ccc92, 0xffeff47d, 0x85845dd1,
   0x6fa87e4f, 0xfe2ce6e0, 0xa3014314, 0x4e0811a1,
   0xf7537e82, 0xbd3af235, 0x2ad7d2bb, 0xeb86d391]

/-- The per-step left-rotation amounts of the four rounds. -/
def sTable : List Nat :=
  [7, 12, 17, 22, 7, 12, 17, 22, 7, 12, 17, 22, 7, 12, 17, 22,
   5, 9, 14, 20, 5, 9, 14, 20, 5, 9, 14, 20, 5, 9, 14, 20,
   4, 11, 16, 23, 4, 11, 16, 23, 4, 11, 16, 23, 4, 11, 16, 23,
   6, 10, 15, 21, 6, 10, 15, 21, 6, 10, 15, 21, 6, 10, 15, 21]

/-- Message-word schedule: which of the 16 block words step `i` reads. -/
def idx (i : Nat) : Nat :=
  if i < 16 then i
  else if i < 32 then (5 * i + 1) % 16
  else if i < 48 then (3 * i + 5) % 16
  else (7 * i) % 16

/-- Nonlinear function used at step `i` (F, G, H, I by round). -/
def auxFn (i x y z : Nat) : Nat :=
  if i < 16 then auxF x y z
  else if i < 32 then auxG x y z
  else if i < 48 then auxH x y z
  else auxI x y z

/-- The four 32-bit accumulators A, B, C, D of the running hash state. -/
structure Regs where
  a : Nat
  b : Nat
  c : Nat
  d : Nat
deriving DecidableEq, Repr

/-- Little-endian decoding of 32-bit word `k` of a 64-byte block. -/
def decodeWord (block : List Nat) (k : Nat) : Nat :=
  (block.getD (4 * k) 0 + 256 * block.getD (4 * k + 1) 0 +
   65536 * block.getD (4 * k + 2) 0 + 16777216 * block.getD (4 * k + 3) 0) % 4294967296

/-- One of the 64 steps of the compression function: the working register
picks up `b + ((a + fn(b,c,d) + X[k] + T[i]) <<< s)` and the register
roles rotate. -/
def md5_step (block : List Nat) (r : Regs) (i : Nat) : Regs :=
  let f := auxFn i r.b r.c r.d
  let x := decodeWord block (idx i)
  let na := wadd r.b (rotl (w32 (r.a + f + x + tTable.getD i 0)) (sTable.getD i 0))
  ⟨r.d, na, r.b, r.c⟩

/-- Modelled from the spec: the MD5 compression function, absent from the
provided source.  Four rounds of 16 operations over one 64-byte block,
followed by the feed-forward addition of the incoming accumulators. -/
def md5_process (r : Regs) (block : List Nat) : Regs :=
  let r2 := (List.range 64).foldl (md5_step block) r
  ⟨wadd r.a r2.a, wadd r.b r2.b, wadd r.c r2.c, wadd r.d r2.d⟩

/-- Drive the compression function over every complete leading 64-byte
block of `m`, returning the updated accumulators and the leftover bytes.
The fuel argument only bounds the recursion; any fuel of at least
`m.length` gives the fixpoint. -/
def processBlocks : Nat → Regs → List Nat → Regs × List Nat
  | 0, r, m => (r, m)
  | fuel + 1, r, m =>
    if 64 ≤ m.length then processBlocks fuel (md5_process r (m.take 64)) (m.drop 64)
    else (r, m)

/-- Process all complete 64-byte blocks of `m`. -/
def processAll (r : Regs) (m : List Nat) : Regs × List Nat :=
  processBlocks m.length r m

/-- The digest state threaded through the three operations: the four
accumulators, the 64-bit counter of absorbed bits, and the pending bytes
that do not yet fill a block. -/
structure bson_md5_t where
  accumulators : Regs
  total_length_bits : Nat
  pending_buffer : List Nat
deriving DecidableEq, Repr

/-- Modelled from the spec: the internal `COMMON_PREFIX`-named MD5
initialization function, absent from the provided source.  Prior
contents of the state are discarded, never read; the accumulators get
the four fixed constants, the bit counter becomes zero and the pending
buffer becomes empty. -/
def mcommon_md5_init (_s : bson_md5_t) : bson_md5_t :=
  ⟨⟨0x67452301, 0xefcdab89, 0x98badcfe, 0x10325476⟩, 0, []⟩

/-- The state produced by initialization, independent of prior contents. -/
def initState : bson_md5_t := mcommon_md5_init ⟨⟨0, 0, 0, 0⟩, 0, []⟩

/-- Modelled from the spec: the internal `COMMON_PREFIX`-named MD5 append
function, absent from the provided source.  It concatenates the pending
buffer with the incoming data, runs the compression function on every
complete 64-byte block, retains the leftover bytes, and advances the bit
counter by `8 * length` modulo 2^64. -/
def mcommon_md5_append (s : bson_md5_t) (data : List Nat) : bson_md5_t :=
  let pr := processAll s.accumulators (s.pending_buffer ++ data)
  ⟨pr.1, (s.total_length_bits + 8 * data.length) % 18446744073709551616, pr.2⟩

/-- The pre-padding bit counter, emitted as 8 bytes least-significant
byte first. -/
def lengthBytes (count : Nat) : List Nat :=
  (List.range 8).map (fun i => (count >>> (8 * i)) % 256)

/-- Number of 0x00 padding bytes after the 0x80 marker: the least z with
`streamBytes + 1 + z` congruent to 56 modulo 64, where `streamBytes` is
the logical stream length in bytes recovered from the bit counter. -/
def padZeroCount (count : Nat) : Nat := (119 - (count / 8) % 64) % 64

/-- Little-endian emission of the four accumulators as 16 bytes, in
order A, B, C, D. -/
def digestBytes (r : Regs) : List Nat :=
  [r.a % 256, (r.a >>> 8) % 256, (r.a >>> 16) % 256, (r.a >>> 24) % 256,
   r.b % 256, (r.b >>> 8) % 256, (r.b >>> 16) % 256, (r.b >>> 24) % 256,
   r.c % 256, (r.c >>> 8) % 256, (r.c >>> 16) % 256, (r.c >>> 24) % 256,
   r.d % 256, (r.d >>> 8) % 256, (r.d >>> 16) % 256, (r.d >>> 24) % 256]

/-- Modelled from the spec: the internal `COMMON_PREFIX`-named MD5 finish
function, absent from the provided source.  It saves the pre-padding bit
counter, absorbs the 0x80 marker and the 0x00 padding, absorbs the saved
counter as 8 little-endian bytes, and emits the four accumulators as 16
little-endian bytes in order A, B, C, D. -/
def mcommon_md5_finish (s : bson_md5_t) : List Nat :=
  let lenB := lengthBytes s.total_length_bits
  let s2 := mcommon_md5_append s (128 :: List.replicate (padZeroCount s.total_length_bits) 0)
  let s3 := mcommon_md5_append s2 lenB
  digestBytes s3.accumulators

/-- Public entry point: forwards to the internal initialization function
with the same argument, exactly as the wrapper in `bson-md5.c` does. -/
def bson_md5_init (pms : bson_md5_t) : bson_md5_t :=
  mcommon_md5_init pms

/-- Public entry point: forwards to the internal append function with
the same arguments in the same order, exactly as the wrapper in
`bson-md5.c` does. -/
def bson_md5_append (pms : bson_md5_t) (data : List Nat) : bson_md5_t :=
  mcommon_md5_append pms data

/-- Public entry point: forwards to the internal finish function with
the same arguments, exactly as the wrapper in `bson-md5.c` does. -/
def bson_md5_finish (pms : bson_md5_t) : List Nat :=
  mcommon_md5_finish pms

/-- The one-shot digest of a byte sequence: fresh state, one append,
then finish. -/
def md5 (input : List Nat) : List Nat :=
  bson_md5_finish (bson_md5_append initState input)

/-- States reachable from a fresh initialization by append calls alone. -/
def Reachable (s : bson_md5_t) : Prop :=
  ∃ L : List (List Nat), s = List.foldl mcommon_md5_append initState L

/-- The state invariant maintained between calls: fewer than 64 pending
bytes and a bit counter inside 64-bit range. -/
def GoodState (s : bson_md5_t) : Prop :=
  s.pending_buffer.length < 64 ∧ s.total_length_bits < 18446744073709551616

theorem processBlocks_nil (fuel : Nat) (r : Regs) : processBlocks fuel r [] = (r, []) := by
  cases fuel <;> simp [processBlocks]

theorem processBlocks_fuel (f1 : Nat) :
    ∀ (f2 : Nat) (r : Regs) (m : List Nat), m.length ≤ f1 → m.length ≤ f2 →
      processBlocks f1 r m = processBlocks f2 r m := by
  induction f1 with
  | zero =>
    intro f2 r m h1 _
    have hm : m = [] := List.eq_nil_of_length_eq_zero (Nat.le_zero.mp h1)
    subst hm
    simp [processBlocks_nil]
  | succ n ih =>
    intro f2 r m h1 h2
    cases f2 with
    | zero =>
      have hm : m = [] := List.eq_nil_of_length_eq_zero (Nat.le_zero.mp h2)
      subst hm
      simp [processBlocks_nil]
    | succ k =>
      simp only [processBlocks]
      by_cases h64 : 64 ≤ m.length
      · rw [if_pos h64, if_pos h64]
        apply ih
        · rw [List.length_drop]; omega
        · rw [List.length_drop]; omega
      · rw [if_neg h64, if_neg h64]

theorem processAll_small {m : List Nat} (r : Regs) (h : m.length < 64) :
    processAll r m = (r, m) := by
  unfold processAll
  cases hl : m.length with
  | zero =>
    have hm : m = [] := List.eq_nil_of_length_eq_zero hl
    subst hm
    simp [processBlocks_nil]
  | succ k =>
    simp only [processBlocks]
    rw [if_neg (by omega)]

theorem processAll_step {m : List Nat} (r : Regs) (h : 64 ≤ m.length) :
    processAll r m = processAll (md5_process r (m.take 64)) (m.drop 64) := by
  unfold processAll
  cases hl : m.length with
  | zero => omega
  | succ k =>
    simp only [processBlocks]
    rw [if_pos h]
    apply processBlocks_fuel
    · rw [List.length_drop]; omega
    · exact Nat.le_refl _

theorem processAll_append_aux (fuel : Nat) :
    ∀ (m y : List Nat) (r : Regs), m.length ≤ fuel →
      processAll r (m ++ y) = processAll (processAll r m).1 ((processAll r m).2 ++ y) := by
  induction fuel with
  | zero =>
    intro m y r h
    have hm : m = [] := List.eq_nil_of_length_eq_zero (Nat.le_zero.mp h)
    subst hm
    rw [processAll_small (m := []) r (by simp)]
  | succ n ih =>
    intro m y r h
    by_cases h64 : 64 ≤ m.length
    · rw [processAll_step r (m := m ++ y) (by rw [List.length_append]; omega)]
      rw [List.take_append_of_le_length h64, List.drop_append_of_le_length h64]
      rw [ih (m.drop 64) y _ (by rw [List.length_drop]; omega)]
      rw [processAll_step r h64]
    · rw [processAll_small (m := m) r (by omega)]

theorem processAll_append (m y : List Nat) (r : Regs) :
    processAll r (m ++ y) = processAll (processAll r m).1 ((processAll r m).2 ++ y) :=
  processAll_append_aux m.length m y r (Nat.le_refl _)

theorem processBlocks_snd (fuel : Nat) :
    ∀ (m : List Nat) (r : Regs), m.length ≤ fuel →
      (processBlocks fuel r m).2.length < 64 ∧
      (processBlocks fuel r m).2.length % 64 = m.length % 64 := by
  induction fuel with
  | zero =>
    intro m r h
    have hm : m = [] := List.eq_nil_of_length_eq_zero (Nat.le_zero.mp h)
    subst hm
    simp [processBlocks]
  | succ n ih =>
    intro m r h
    simp only [processBlocks]
    by_cases h64 : 64 ≤ m.length
    · rw [if_pos h64]
      obtain ⟨ha, hb⟩ := ih (m.drop 64) (md5_process r (m.take 64)) (by rw [List.length_drop]; omega)
      refine ⟨ha, ?_⟩
      rw [hb, List.length_drop]
      omega
    · rw [if_neg h64]
      exact ⟨(by omega : m.length < 64), rfl⟩

theorem processAll_snd_lt (r : Regs) (m : List Nat) : (processAll r m).2.length < 64 :=
  (processBlocks_snd m.length m r (Nat.le_refl _)).1

theorem processAll_snd_mod (r : Regs) (m : List Nat) :
    (processAll r m).2.length % 64 = m.length % 64 :=
  (processBlocks_snd m.length m r (Nat.le_refl _)).2

theorem mcommon_md5_append_assoc (s : bson_md5_t) (x y : List Nat) :
    mcommon_md5_append (mcommon_md5_append s x) y = mcommon_md5_append s (x ++ y) := by
  simp only [mcommon_md5_append]
  rw [← List.append_assoc, processAll_append (s.pending_buffer ++ x) y s.accumulators]
  congr 1
  rw [List.length_append, Nat.mod_add_mod]
  omega

theorem mcommon_md5_append_nil (s : bson_md5_t)
    (hb : s.pending_buffer.length < 64) (hc : s.total_length_bits < 18446744073709551616) :
    mcommon_md5_append s [] = s := by
  simp only [mcommon_md5_append]
  rw [List.append_nil, processAll_small s.accumulators hb]
  simp [Nat.mod_eq_of_lt hc]


theorem goodState_append (s : bson_md5_t) (d : List Nat) : GoodState (mcommon_md5_append s d) :=
  ⟨processAll_snd_lt _ _, Nat.mod_lt _ (by norm_num)⟩

theorem goodState_initState : GoodState initState := ⟨by decide, by decide⟩

theorem foldl_append_flatten :
    ∀ (L : List (List Nat)) (s : bson_md5_t), GoodState s →
      List.foldl mcommon_md5_append s L = mcommon_md5_append s L.flatten := by
  intro L
  induction L with
  | nil =>
    intro s hs
    rw [List.foldl_nil, List.flatten_nil, mcommon_md5_append_nil s hs.1 hs.2]
  | cons x L ih =>
    intro s hs
    rw [List.foldl_cons, ih _ (goodState_append s x), mcommon_md5_append_assoc, List.flatten_cons]

theorem append_initState_count (I : List Nat) :
    (mcommon_md5_append initState I).total_length_bits = (8 * I.length) % 18446744073709551616 := by
  simp [mcommon_md5_append, initState, mcommon_md5_init]

theorem append_initState_buf_mod (I : List Nat) :
    (mcommon_md5_append initState I).pending_buffer.length % 64 = I.length % 64 := by
  have h := processAll_snd_mod initState.accumulators ([] ++ I)
  simpa using h

theorem reachable_inv (s : bson_md5_t) (h : Reachable s) :
    s.pending_buffer.length < 64 ∧
    s.total_length_bits < 18446744073709551616 ∧
    s.pending_buffer.length % 64 = (s.total_length_bits / 8) % 64 := by
  obtain ⟨L, rfl⟩ := h
  rw [foldl_append_flatten L initState goodState_initState]
  refine ⟨processAll_snd_lt _ _, Nat.mod_lt _ (by norm_num), ?_⟩
  rw [append_initState_buf_mod, append_initState_count]
  omega

theorem lengthBytes_eq (c : Nat) :
    lengthBytes c =
      [c % 256, c / 256 % 256, c / 65536 % 256, c / 16777216 % 256,
       c / 4294967296 % 256, c / 1099511627776 % 256,
       c / 281474976710656 % 256, c / 72057594037927936 % 256] := by
  simp [lengthBytes, List.range_succ, Nat.shiftRight_eq_div_pow]

theorem digestBytes_eq (r : Regs) :
    digestBytes r =
      [r.a % 256, r.a / 256 % 256, r.a / 65536 % 256, r.a / 16777216 % 256,
       r.b % 256, r.b / 256 % 256, r.b / 65536 % 256, r.b / 16777216 % 256,
       r.c % 256, r.c / 256 % 256, r.c / 65536 % 256, r.c / 16777216 % 256,
       r.d % 256, r.d / 256 % 256, r.d / 65536 % 256, r.d / 16777216 % 256] := by
  simp [digestBytes, Nat.shiftRight_eq_div_pow]

theorem digestBytes_all_lt (r : Regs) :
    (digestBytes r).all (fun b => decide (b < 256)) = true := by
  simp [digestBytes]
  omega

theorem digest_foldl_flatten (L : List (List Nat)) :
    bson_md5_finish (List.foldl bson_md5_append initState L) = md5 L.flatten := by
  show mcommon_md5_finish (List.foldl mcommon_md5_append initState L) = md5 L.flatten
  rw [foldl_append_flatten L initState goodState_initState]
  rfl

/-- C1: Chunk-invariance of append: for every byte sequence S and every way
of partitioning S into a sequence of append calls (including interspersed
zero-length calls) on a freshly initialized state, the digest produced by
finish is identical to the digest obtained from a single append of all of
S at once. -/
theorem c1_chunk_invariance (L : List (List Nat)) :
    bson_md5_finish (List.foldl bson_md5_append initState L) = md5 L.flatten :=
  digest_foldl_flatten L

set_option maxRecDepth 200000 in
/-- C2: Known-answer correctness: from a freshly initialized state, the
empty input hashes to d41d8cd98f00b204e9800998ecf8427e, the bytes of
"abc" hash to 900150983cd24fb0d6963f7d28e17f72, and the bytes of
"message digest" hash to f96b697d7cb7938d525a2f31aaf161d0 (RFC 1321). -/
theorem c2_known_answers :
    md5 [] = [0xd4, 0x1d, 0x8c, 0xd9, 0x8f, 0x00, 0xb2, 0x04,
              0xe9, 0x80, 0x09, 0x98, 0xec, 0xf8, 0x42, 0x7e] ∧
    md5 [0x61, 0x62, 0x63] =
      [0x90, 0x01, 0x50, 0x98, 0x3c, 0xd2, 0x4f, 0xb0,
       0xd6, 0x96, 0x3f, 0x7d, 0x28, 0xe1, 0x7f, 0x72] ∧
    md5 [0x6d, 0x65, 0x73, 0x73, 0x61, 0x67, 0x65, 0x20,
         0x64, 0x69, 0x67, 0x65, 0x73, 0x74] =
      [0xf9, 0x6b, 0x69, 0x7d, 0x7c, 0xb7, 0x93, 0x8d,
       0x52, 0x5a, 0x2f, 0x31, 0xaa, 0xf1, 0x61, 0xd0] :=
  ⟨by decide, by decide, by decide⟩

/-- C3: Finalization algorithm of finish: on every reachable state, finish
appends a single 0x80 byte, then 0x00 bytes until the logical stream
length in bytes is congruent to 56 modulo 64, then the pre-padding bit
counter as 8 bytes least-significant byte first; the resulting tail is
exactly one or two 64-byte blocks, fully consumed by the compression
function; and the digest is the four accumulators written as 4
little-endian bytes each in order A, B, C, D, 16 bytes in total. -/
theorem c3_finish_finalization (s : bson_md5_t) (h : Reachable s) :
    ∃ z : Nat,
      (s.pending_buffer.length + 1 + z) % 64 = 56 ∧
      (s.pending_buffer.length + 1 + z + 8 = 64 ∨
       s.pending_buffer.length + 1 + z + 8 = 128) ∧
      lengthBytes s.total_length_bits =
        [s.total_length_bits % 256, s.total_length_bits / 256 % 256,
         s.total_length_bits / 65536 % 256, s.total_length_bits / 16777216 % 256,
         s.total_length_bits / 4294967296 % 256,
         s.total_length_bits / 1099511627776 % 256,
         s.total_length_bits / 281474976710656 % 256,
         s.total_length_bits / 72057594037927936 % 256] ∧
      (processAll s.accumulators
          (s.pending_buffer ++
            128 :: (List.replicate z 0 ++ lengthBytes s.total_length_bits))).2 = [] ∧
      bson_md5_finish s =
        digestBytes (processAll s.accumulators
          (s.pending_buffer ++
            128 :: (List.replicate z 0 ++ lengthBytes s.total_length_bits))).1 ∧
      (∀ r : Regs, digestBytes r =
        [r.a % 256, r.a / 256 % 256, r.a / 65536 % 256, r.a / 16777216 % 256,
         r.b % 256, r.b / 256 % 256, r.b / 65536 % 256, r.b / 16777216 % 256,
         r.c % 256, r.c / 256 % 256, r.c / 65536 % 256, r.c / 16777216 % 256,
         r.d % 256, r.d / 256 % 256, r.d / 65536 % 256, r.d / 16777216 % 256]) ∧
      (bson_md5_finish s).length = 16 := by
  obtain ⟨hb, hc, hm⟩ := reachable_inv s h
  refine ⟨padZeroCount s.total_length_bits, ?_, ?_, lengthBytes_eq _, ?_, ?_,
    digestBytes_eq, ?_⟩
  · unfold padZeroCount
    omega
  · unfold padZeroCount
    omega
  · apply List.eq_nil_of_length_eq_zero
    have h1 := processAll_snd_mod s.accumulators
      (s.pending_buffer ++
        128 :: (List.replicate (padZeroCount s.total_length_bits) 0 ++
          lengthBytes s.total_length_bits))
    have h2 := processAll_snd_lt s.accumulators
      (s.pending_buffer ++
        128 :: (List.replicate (padZeroCount s.total_length_bits) 0 ++
          lengthBytes s.total_length_bits))
    have h3 : (s.pending_buffer ++
        128 :: (List.replicate (padZeroCount s.total_length_bits) 0 ++
          lengthBytes s.total_length_bits)).length =
        s.pending_buffer.length + 1 + padZeroCount s.total_length_bits + 8 := by
      simp [lengthBytes]
      omega
    rw [h3] at h1
    unfold padZeroCount at *
    omega
  · show mcommon_md5_finish s = _
    simp only [mcommon_md5_finish]
    rw [mcommon_md5_append_assoc, List.cons_append]
    rfl
  · show (mcommon_md5_finish s).length = 16
    rfl

/-- Witness for C3 at the freshly initialized state. -/
theorem c3_witness :
    Reachable initState ∧
    (∃ z : Nat,
      (initState.pending_buffer.length + 1 + z) % 64 = 56 ∧
      (initState.pending_buffer.length + 1 + z + 8 = 64 ∨
       initState.pending_buffer.length + 1 + z + 8 = 128) ∧
      lengthBytes initState.total_length_bits =
        [initState.total_length_bits % 256, initState.total_length_bits / 256 % 256,
         initState.total_length_bits / 65536 % 256,
         initState.total_length_bits / 16777216 % 256,
         initState.total_length_bits / 4294967296 % 256,
         initState.total_length_bits / 1099511627776 % 256,
         initState.total_length_bits / 281474976710656 % 256,
         initState.total_length_bits / 72057594037927936 % 256] ∧
      (processAll initState.accumulators
          (initState.pending_buffer ++
            128 :: (List.replicate z 0 ++ lengthBytes initState.total_length_bits))).2 = [] ∧
      bson_md5_finish initState =
        digestBytes (processAll initState.accumulators
          (initState.pending_buffer ++
            128 :: (List.replicate z 0 ++ lengthBytes initState.total_length_bits))).1 ∧
      (∀ r : Regs, digestBytes r =
        [r.a % 256, r.a / 256 % 256, r.a / 65536 % 256, r.a / 16777216 % 256,
         r.b % 256, r.b / 256 % 256, r.b / 65536 % 256, r.b / 16777216 % 256,
         r.c % 256, r.c / 256 % 256, r.c / 65536 % 256, r.c / 16777216 % 256,
         r.d % 256, r.d / 256 % 256, r.d / 65536 % 256, r.d / 16777216 % 256]) ∧
      (bson_md5_finish initState).length = 16) :=
  ⟨⟨[], rfl⟩, c3_finish_finalization initState ⟨[], rfl⟩⟩

/-- C4: Postcondition of initialize: whatever the prior contents of the
state (they are discarded, not read), after initialization the four
accumulators hold 0x67452301, 0xefcdab89, 0x98badcfe, 0x10325476, the bit
counter is zero and the pending buffer is empty. -/
theorem c4_initialization (s : bson_md5_t) :
    (bson_md5_init s).accumulators.a = 0x67452301 ∧
    (bson_md5_init s).accumulators.b = 0xefcdab89 ∧
    (bson_md5_init s).accumulators.c = 0x98badcfe ∧
    (bson_md5_init s).accumulators.d = 0x10325476 ∧
    (bson_md5_init s).total_length_bits = 0 ∧
    (bson_md5_init s).pending_buffer = [] :=
  ⟨rfl, rfl, rfl, rfl, rfl, rfl⟩

/-- C5: State invariant preserved by every operation sequence starting
from initialize: between calls the pending buffer holds strictly fewer
than 64 bytes, the bit counter equals 8 times the total number of bytes
passed to append so far modulo 2^64, and each append advances the
counter by 8 times its length modulo 2^64. -/
theorem c5_state_invariant :
    (∀ L : List (List Nat),
      (List.foldl bson_md5_append initState L).pending_buffer.length < 64 ∧
      (List.foldl bson_md5_append initState L).total_length_bits =
        8 * L.flatten.length % 18446744073709551616) ∧
    (∀ (s : bson_md5_t) (data : List Nat),
      (bson_md5_append s data).total_length_bits =
        (s.total_length_bits + 8 * data.length) % 18446744073709551616) := by
  constructor
  · intro L
    have he : List.foldl bson_md5_append initState L =
        mcommon_md5_append initState L.flatten := by
      show List.foldl mcommon_md5_append initState L = _
      exact foldl_append_flatten L initState goodState_initState
    rw [he]
    exact ⟨processAll_snd_lt _ _, append_initState_count L.flatten⟩
  · intro s data
    rfl

/-- C6: Re-initialization isolation: a state that held arbitrary prior
contents (for instance one already driven through finish), once
re-initialized and fed any new input, produces exactly the digest of the
new input alone. -/
theorem c6_reinitialization (sPrior : bson_md5_t) (L : List (List Nat)) :
    bson_md5_finish (List.foldl bson_md5_append (bson_md5_init sPrior) L) =
      md5 L.flatten := by
  show bson_md5_finish (List.foldl bson_md5_append initState L) = md5 L.flatten
  exact digest_foldl_flatten L

/-- C7: Determinism: any two computations over the same underlying byte
sequence (fresh state, any chunkings, then finish) produce the same
16-byte digest; every operation is a function of the state and input. -/
theorem c7_determinism (L1 L2 : List (List Nat)) (h : L1.flatten = L2.flatten) :
    bson_md5_finish (List.foldl bson_md5_append initState L1) =
      bson_md5_finish (List.foldl bson_md5_append initState L2) := by
  rw [digest_foldl_flatten L1, digest_foldl_flatten L2, h]

/-- Witness for C7: the two-chunk and one-chunk runs over the bytes 1, 2
agree. -/
theorem c7_witness :
    ([[1], [2]] : List (List Nat)).flatten = ([[1, 2]] : List (List Nat)).flatten ∧
    bson_md5_finish (List.foldl bson_md5_append initState [[1], [2]]) =
      bson_md5_finish (List.foldl bson_md5_append initState [[1, 2]]) :=
  ⟨by decide, c7_determinism [[1], [2]] [[1, 2]] (by decide)⟩

/-- C8: Totality: initialize, append and finish are total functions with
no error branch: on every state and input, finish always yields exactly
16 byte values, append always yields a state whose counter is a valid
64-bit quantity, and initialize always yields an empty pending buffer. -/
theorem c8_totality (s : bson_md5_t) (data : List Nat) :
    (bson_md5_finish s).length = 16 ∧
    (bson_md5_finish s).all (fun b => decide (b < 256)) = true ∧
    (bson_md5_append s data).total_length_bits < 18446744073709551616 ∧
    (bson_md5_init s).pending_buffer.length < 64 :=
  ⟨rfl, digestBytes_all_lt _, Nat.mod_lt _ (by norm_num), (by norm_num : (0 : Nat) < 64)⟩

/-- C9: Pure delegation equivalence: each public operation equals the
corresponding internal implementation function applied to exactly the
same arguments in the same order. -/
theorem c9_delegation :
    (∀ s : bson_md5_t, bson_md5_init s = mcommon_md5_init s) ∧
    (∀ (s : bson_md5_t) (data : List Nat),
      bson_md5_append s data = mcommon_md5_append s data) ∧
    (∀ s : bson_md5_t, bson_md5_finish s = mcommon_md5_finish s) :=
  ⟨fun _ => rfl, fun _ _ => rfl, fun _ => rfl⟩

/-- C10: Unconditional forwarding at the public boundary: even on a state
that is not reachable by any legal initialize-then-append history (for
instance never initialized or already consumed), the wrappers perform no
check and forward to the internal implementation unchanged, so no error
is ever raised at this layer. -/
theorem c10_unconditional_forwarding (s : bson_md5_t) (data : List Nat)
    (_h : ¬ Reachable s) :
    bson_md5_append s data = mcommon_md5_append s data ∧
    bson_md5_finish s = mcommon_md5_finish s :=
  ⟨rfl, rfl⟩

/-- Witness for C10 at a state whose pending buffer illegally holds 64
bytes, which no initialize-then-append history can produce. -/
theorem c10_witness :
    ¬ Reachable ⟨⟨0, 0, 0, 0⟩, 0, List.replicate 64 0⟩ ∧
    (bson_md5_append ⟨⟨0, 0, 0, 0⟩, 0, List.replicate 64 0⟩ [] =
       mcommon_md5_append ⟨⟨0, 0, 0, 0⟩, 0, List.replicate 64 0⟩ [] ∧
     bson_md5_finish ⟨⟨0, 0, 0, 0⟩, 0, List.replicate 64 0⟩ =
       mcommon_md5_finish ⟨⟨0, 0, 0, 0⟩, 0, List.replicate 64 0⟩) := by
  have hnr : ¬ Reachable ⟨⟨0, 0, 0, 0⟩, 0, List.replicate 64 0⟩ := by
    intro hr
    have hlt := (reachable_inv _ hr).1
    simp at hlt
  exact ⟨hnr, c10_unconditional_forwarding _ [] hnr⟩
